import Mathlib

/-!
Verification of the ClassifierOrganizer ("Chip Organizer") core against its
natural-language specification.

The Python source (src/utils.py, src/chip_organizer.py) is shallowly embedded:
Python strings are Lean `String`s, but every string primitive the code relies on
(`str.strip`, `str.startswith`, `str.split('\n')`, `str.lower`, `str.endswith`,
lexicographic comparison) is modelled explicitly over the underlying character
list so that all definitions are executable and kernel-reducible.  Python dicts
that the application uses as string-to-string maps are embedded as association
lists with unique keys (Python dicts preserve insertion order, which the
embedding mirrors).  JSON documents are embedded as an inductive `JsonVal`.
Operations that can raise a Python exception return `Option`/a failure flag.
-/

/-! ### Python string primitives, modelled over `List Char` -/

/-- Characters treated as whitespace by Python's `str.strip()` (ASCII part). -/
def isPyWs (c : Char) : Bool :=
  c == ' ' || c == '\t' || c == '\n' || c == '\r' || c == '\x0b' || c == '\x0c'

/-- Strip leading and trailing whitespace from a character list
(model of Python `str.strip()`). -/
def trimChars (l : List Char) : List Char :=
  ((l.dropWhile isPyWs).reverse.dropWhile isPyWs).reverse

/-- Model of Python `str.strip()`. -/
def pyStrip (s : String) : String :=
  ⟨trimChars s.data⟩

/-- Model of Python `s.startswith('#')`. -/
def startsHash (s : String) : Bool :=
  match s.data with
  | [] => false
  | c :: _ => c == '#'

/-- Model of Python `str.split('\n')` on character lists: splits at every
newline, keeping empty pieces (as Python does). -/
def splitNl : List Char → List (List Char)
  | [] => [[]]
  | c :: cs =>
    if c == '\n' then [] :: splitNl cs
    else
      match splitNl cs with
      | [] => [[c]]
      | h :: t => (c :: h) :: t

/-- Model of Python `text.split('\n')`. -/
def pySplitLines (s : String) : List String :=
  (splitNl s.data).map String.mk

/-- ASCII lower-casing of a character (model of Python `str.lower` on the
ASCII file names and labels this application handles). -/
def lowerChar (c : Char) : Char :=
  if 'A' ≤ c ∧ c ≤ 'Z' then Char.ofNat (c.toNat + 32) else c

/-- Model of Python `str.lower()`. -/
def pyLower (s : String) : String :=
  ⟨s.data.map lowerChar⟩

/-- Model of Python `s.endswith(pat)`. -/
def pyEndsWith (s pat : String) : Bool :=
  s.data.drop (s.data.length - pat.data.length) == pat.data

/-- Lexicographic comparison of character lists by code point (the order
Python uses to compare strings / single-component paths). -/
def lexLe : List Char → List Char → Bool
  | [], _ => true
  | _ :: _, [] => false
  | a :: as, b :: bs =>
    if a.toNat < b.toNat then true
    else if b.toNat < a.toNat then false
    else lexLe as bs

/-- Model of Python string `<=` (used by `sorted`). -/
def strLe (a b : String) : Bool :=
  lexLe a.data b.data

/-! ### utils.py: `parse_labels_from_text` (src/utils.py lines 30-72) -/

/-- Result of `parse_labels_from_text`: the dict with keys
`'added'`, `'duplicates'`, `'skipped'`. -/
structure ParseResult where
  added : List String
  duplicates : List String
  skipped : List String
deriving DecidableEq, Repr

/-- The per-line condition under which a (stripped) line is kept by both
`parse_labels_from_text` and the ontology CSV loader:
`if line and not line.startswith('#')`. -/
def keepLabel (s : String) : Bool :=
  !(s == "") && !(startsHash s)

/-- One iteration of the loop body of `parse_labels_from_text`
(src/utils.py lines 49-66). -/
def parseStep (existing : List String) (acc : ParseResult) (line : String) : ParseResult :=
  let label := pyStrip line
  if !(keepLabel label) then acc
  else if existing.contains label then
    { acc with duplicates := acc.duplicates ++ [label] }
  else if acc.added.contains label then
    { acc with skipped := acc.skipped ++ [label] }
  else
    { acc with added := acc.added ++ [label] }

/-- Embedding of `parse_labels_from_text(text, existing_categories)`
(src/utils.py lines 30-72). -/
def parseLabelsFromText (text : String) (existing : List String) : ParseResult :=
  (pySplitLines text).foldl (parseStep existing) ⟨[], [], []⟩

/-- The stripped, non-empty, non-comment lines of the input, in order — the
candidates that `parse_labels_from_text` classifies three ways. -/
def candidates (text : String) : List String :=
  ((pySplitLines text).map pyStrip).filter keepLabel

/-- Modelled from the spec: "appends to `added`" unless the candidate "repeats
an earlier candidate already placed into `added`" — the first occurrence of
each element, relative to an initial `seen` list. -/
def firstOccs (seen : List String) : List String → List String
  | [] => []
  | a :: l => if seen.contains a then firstOccs seen l else a :: firstOccs (seen ++ [a]) l

/-- Modelled from the spec: the candidates classified as `skippedInInput` —
the repeated occurrences dropped by `firstOccs`, relative to `seen`. -/
def repeatOccs (seen : List String) : List String → List String
  | [] => []
  | a :: l => if seen.contains a then a :: repeatOccs seen l else repeatOccs (seen ++ [a]) l

/-! ### utils.py: `find_image_files` (src/utils.py lines 9-27) -/

/-- Model of `directory.glob("*" + suffix)`: the directory entries whose name
ends with the given suffix; on a case-insensitive file system the match folds
case.  `entries` is the list of (distinct) names in the directory. -/
def globSuffix (ci : Bool) (entries : List String) (suffix : String) : List String :=
  entries.filter (fun e => if ci then pyEndsWith (pyLower e) (pyLower suffix) else pyEndsWith e suffix)

/-- Model of Python ASCII `str.upper()` (applied to the extension). -/
def upperChar (c : Char) : Char :=
  if 'a' ≤ c ∧ c ≤ 'z' then Char.ofNat (c.toNat - 32) else c

/-- Model of Python `str.upper()`. -/
def pyUpper (s : String) : String :=
  ⟨s.data.map upperChar⟩

/-- Add an element to a duplicate-free list if not already present
(model of inserting into a Python `set`). -/
def addNew (acc : List String) (x : String) : List String :=
  if acc.contains x then acc else acc ++ [x]

/-- Collect both glob passes of `find_image_files` over all extensions into a
set (model of `image_files_set.update(...)` in src/utils.py lines 22-25). -/
def collectMatches (ci : Bool) (entries : List String) (formats : List String) : List String :=
  formats.foldl
    (fun acc ext =>
      (globSuffix ci entries (pyUpper ext)).foldl addNew
        ((globSuffix ci entries ext).foldl addNew acc))
    []

/-- Insert into a list sorted by `strLe` (auxiliary for the model of Python's
`sorted`). -/
def insertLe (x : String) : List String → List String
  | [] => [x]
  | y :: ys => if strLe x y then x :: y :: ys else y :: insertLe x ys

/-- Model of Python `sorted` on strings (insertion sort; Python's sort is a
stable comparison sort, and on a duplicate-free list any comparison sort
produces the same output). -/
def sortLe : List String → List String
  | [] => []
  | x :: xs => insertLe x (sortLe xs)

/-- Embedding of `find_image_files(directory, supported_formats)`
(src/utils.py lines 9-27): both case spellings of every extension are globbed,
results are deduplicated through a set, and the set is returned sorted. -/
def findImageFiles (ci : Bool) (entries : List String) (formats : List String) : List String :=
  sortLe (collectMatches ci entries formats)

/-! ### JSON documents and `get_categories_from_ontology`
(src/utils.py lines 75-97) -/

/-- Embedding of the JSON-like Python values the session and ontology
documents consist of. -/
inductive JsonVal where
  | str (s : String)
  | num (n : Int)
  | bool (b : Bool)
  | null
  | list (xs : List JsonVal)
  | dict (entries : List (String × JsonVal))

/-- Python equality between a string and a JSON value (`label in list`
compares the string `label` with each element; only a string value can be
equal to it). -/
def isStrVal (lbl : String) : JsonVal → Bool
  | .str s => s == lbl
  | _ => false

/-- First value bound to a key in a dict entry list
(model of Python `d[k]` / `k in d` on dicts, whose keys are unique). -/
def lookupEntry (k : String) : List (String × JsonVal) → Option JsonVal
  | [] => none
  | e :: rest => if e.1 == k then some e.2 else lookupEntry k rest

/-- Embedding of `get_categories_from_ontology(ontology)`
(src/utils.py lines 75-97).  The Python function returns
`ontology['categories']` raw when the key is present, the keys of
`ontology['classes']` when that key holds a dict, the keys of any other dict,
a list unchanged, and `[]` for anything else; when `ontology['classes']` is
not a dict the Python call `list(....keys())` raises, modelled as `none`. -/
def getCategoriesFromOntology : JsonVal → Option JsonVal
  | .dict entries =>
    match lookupEntry "categories" entries with
    | some v => some v
    | none =>
      match lookupEntry "classes" entries with
      | some (.dict ces) => some (.list (ces.map (fun e => .str e.1)))
      | some _ => none
      | none => some (.list (entries.map (fun e => .str e.1)))
  | .list xs => some (.list xs)
  | _ => some (.list [])

/-! ### chip_organizer.py: the cycle action's page computation
(`cycle_labeled_images`, src/chip_organizer.py lines 811-892).

`cyclePage L p c` is the page of images the cycle action displays, where `L`
is the alphabetically sorted list of remaining unlabeled image names
(`unlabeled_images`, line 823), `p = cols*rows` is the page capacity and `c`
is `self.grid_start_index`.  `nextCursor` is the cursor advance
(lines 878-883). -/

/-- The page displayed by one cycle action (src/chip_organizer.py
lines 832-851): the cursor is reset to 0 when out of range; with at most a
pageful remaining, everything is shown; otherwise the slice starting at the
cursor, wrapping to the front when it runs past the end. -/
def cyclePage (L : List String) (p c : Nat) : List String :=
  let n := L.length
  let s := if n ≤ c then 0 else c
  if n ≤ p then L
  else if s + p ≤ n then (L.drop s).take p
  else L.drop s ++ L.take (s + p - n)

/-- The cursor after one cycle action (src/chip_organizer.py lines 832-834 and
878-883): modular advance by the page size when at least a pageful remains,
else reset to 0. -/
def nextCursor (n p c : Nat) : Nat :=
  let s := if n ≤ c then 0 else c
  if p ≤ n then (s + p) % n else 0

/-- The cursor after `k` cycle actions over a fixed unlabeled list of
length `n`. -/
def cursorIter (n p c : Nat) : Nat → Nat
  | 0 => c
  | k + 1 => nextCursor n p (cursorIter n p c k)

/-! ### chip_organizer.py: ontology CSV import and label CSV export
(`load_ontology` lines 409-420, `export_labels_to_csv` lines 613-622).

Both functions work with the file as a sequence of lines: `load_ontology`
iterates the open file line by line, and every chunk `export_labels_to_csv`
writes ends with a newline (the count header ends with a double newline,
producing the blank separator line).  The embedding therefore represents the
CSV file by its list of lines. -/

/-- Embedding of the line loop of `load_ontology` (src/chip_organizer.py
lines 413-417): each line is stripped, and empty or `#`-prefixed lines are
skipped. -/
def loadOntologyLines (lines : List String) : List String :=
  (lines.map pyStrip).filter keepLabel

/-- Embedding of the writes of `export_labels_to_csv` (src/chip_organizer.py
lines 614-622) as the lines of the produced file: two `#` comment lines (the
second carrying the total count), the blank line from the double newline, then
one label per line in ontology order. -/
def exportLabelsLines (labels : List String) : List String :=
  "# Exported Labels from Chip Organizer" ::
    ("# Total labels: " ++ Nat.repr labels.length) :: "" :: labels

/-! ### Session state and the classification map -/

/-- Python dict lookup on the classification map (`filename in
self.classifications` / `self.classifications[filename]`). -/
def dictGet (m : List (String × String)) (k : String) : Option String :=
  match m with
  | [] => none
  | e :: rest => if e.1 = k then some e.2 else dictGet rest k

/-- Python dict assignment `m[k] = v`: overwrites the value in place when the
key exists (dicts preserve insertion order), otherwise appends the new
binding. -/
def dictSet (m : List (String × String)) (k v : String) : List (String × String) :=
  if m.any (fun p => p.1 == k) then
    m.map (fun p => if p.1 = k then (p.1, v) else p)
  else m ++ [(k, v)]

/-- Embedding of the mutable state of `ChipOrganizerApp` that the core
operations read and write (src/chip_organizer.py lines 84-97). -/
structure SessionState where
  sourceDirectory : Option String
  imageFiles : List String
  currentIndex : JsonVal
  ontology : JsonVal
  classifications : List (String × String)
  currentCategory : Option String
  gridLabels : List (Nat × String)
  gridStartIndex : Nat

/-- Remove the first occurrence of the string `lbl` from a Python list
(`list.remove(label)`). -/
def removeFirstStr (lbl : String) : List JsonVal → List JsonVal
  | [] => []
  | x :: xs => if isStrVal lbl x then xs else x :: removeFirstStr lbl xs

/-- One step of the removal loop of `remove_label` (src/chip_organizer.py
lines 571-573): `if label in categories: categories.remove(label)`. -/
def removeOneLabel (xs : List JsonVal) (lbl : String) : List JsonVal :=
  if xs.any (isStrVal lbl) then removeFirstStr lbl xs else xs

/-- Embedding of the ontology mutation of `remove_label`
(src/chip_organizer.py lines 568-573): only a dict ontology with a
`'categories'` list is touched; each selected label's first occurrence is
removed from that list.  (The application only ever stores a list under
`'categories'`; other shapes never reach this code path.) -/
def removeCategories (o : JsonVal) (labelsToRemove : List String) : JsonVal :=
  match o with
  | .dict entries =>
    match lookupEntry "categories" entries with
    | some (.list xs) =>
      .dict (entries.map (fun e =>
        if e.1 == "categories" then ("categories", .list (labelsToRemove.foldl removeOneLabel xs))
        else e))
    | _ => o
  | _ => o

/-- Embedding of `remove_label`'s effect on the session state: only the
ontology changes (src/chip_organizer.py lines 568-576; the dialog and
confirmation are presentation). -/
def removeLabelOp (s : SessionState) (labelsToRemove : List String) : SessionState :=
  { s with ontology := removeCategories s.ontology labelsToRemove }

/-- The per-category count computed by `update_statistics`
(src/chip_organizer.py lines 905-907): the number of classification entries
whose value is the given category. -/
def categoryCount (m : List (String × String)) (cat : String) : Nat :=
  (m.filter (fun p => p.2 == cat)).length

/-! ### chip_organizer.py: `on_image_clicked` (lines 776-809) -/

/-- Widget lookup in the grid (`self.grid_labels.get(image_widget)`). -/
def gridGet (g : List (Nat × String)) (w : Nat) : Option String :=
  match g with
  | [] => none
  | e :: rest => if e.1 == w then some e.2 else gridGet rest w

/-- Embedding of `on_image_clicked` (src/chip_organizer.py lines 776-809):
with no selected category, or an unknown widget, nothing changes; otherwise
the clicked image's classification is set to the selected category.  The grid
mapping is not modified (the widget is only re-styled). -/
def onImageClicked (s : SessionState) (widget : Nat) : SessionState :=
  match s.currentCategory with
  | none => s
  | some cat =>
    match gridGet s.gridLabels widget with
    | none => s
    | some imageName => { s with classifications := dictSet s.classifications imageName cat }

/-! ### chip_organizer.py: `load_progress` (lines 954-991) -/

/-- Field access `d[k]` on a JSON document: fails (raises) when the document
is not an object or the key is missing. -/
def jsonField (d : JsonVal) (k : String) : Option JsonVal :=
  match d with
  | .dict entries => lookupEntry k entries
  | _ => none

/-- Field access with default, `d.get(k, dflt)` (never raises on an
object). -/
def jsonFieldD (d : JsonVal) (k : String) (dflt : JsonVal) : JsonVal :=
  match jsonField d k with
  | some v => v
  | none => dflt

/-- The loaded `'classifications'` object as the typed classification map
(the application only ever stores string values; non-string values are
outside the embedding and dropped). -/
def asStrPairs : JsonVal → List (String × String)
  | .dict es => es.filterMap (fun e =>
      match e.2 with
      | .str v => some (e.1, v)
      | _ => none)
  | _ => []

/-- Python truthiness of the ontology value (`if not self.ontology: return` in
`update_category_list`, src/chip_organizer.py line 439). -/
def truthy : JsonVal → Bool
  | .str s => !(s == "")
  | .num n => !(n == 0)
  | .bool b => b
  | .null => false
  | .list xs => !xs.isEmpty
  | .dict es => !es.isEmpty

/-- Whether a Python `for` loop can iterate the extracted categories value
(strings, lists and dicts are iterable; numbers, booleans and `None`
raise). -/
def iterableVal : JsonVal → Bool
  | .num _ => false
  | .bool _ => false
  | .null => false
  | _ => true

/-- Whether the `update_category_list` refresh at the end of `load_progress`
(src/chip_organizer.py line 977, running lines 435-461) completes without
raising: with a truthy ontology the category extraction must succeed and its
result must be iterable. -/
def refreshOk (o : JsonVal) : Bool :=
  if truthy o then
    match getCategoriesFromOntology o with
    | none => false
    | some v => iterableVal v
  else true

/-- Embedding of `load_progress` (src/chip_organizer.py lines 954-991).
`doc` is the parsed JSON document (`none` when the file is unreadable or not
valid JSON, in which case `json.load` raises before any state is touched);
`discover` abstracts re-running `find_image_files` against the on-disk source
directory (line 974).  The returned flag is `false` when the operation raised
and was caught by the surrounding `except` (line 987): before the first
assignment for a missing or non-string `'source_directory'`, or after all
assignments when the category-list refresh raises. -/
def loadProgress (discover : String → List String) (s : SessionState) (doc : Option JsonVal) :
    SessionState × Bool :=
  match doc with
  | none => (s, false)
  | some d =>
    match jsonField d "source_directory" with
    | none => (s, false)
    | some (.str dir) =>
      let s' : SessionState :=
        { s with
          sourceDirectory := some dir
          currentIndex := jsonFieldD d "current_index" (.num 0)
          classifications := asStrPairs (jsonFieldD d "classifications" (.dict []))
          ontology := jsonFieldD d "ontology" (.dict [])
          imageFiles := discover dir }
      if refreshOk s'.ontology then (s', true) else (s', false)
    | some _ => (s, false)

/-! ### chip_organizer.py: `export_images` (lines 993-1039) -/

/-- Path concatenation (`source_directory / filename`,
`output / category / filename`). -/
def pathJoin (a b : String) : String :=
  a ++ "/" ++ b

/-- Add a path to the set of existing files (copy destinations overwrite
silently). -/
def addFile (fs : List String) (p : String) : List String :=
  if fs.contains p then fs else fs ++ [p]

/-- One successful copy/move of the export loop
(src/chip_organizer.py lines 1016-1029) applied to the file set. -/
def exportStep (srcDir dstDir : String) (copyMode : Bool) (fs : List String)
    (entry : String × String) : List String :=
  let src := pathJoin srcDir entry.1
  let dst := pathJoin (pathJoin dstDir entry.2) entry.1
  if copyMode then addFile fs dst else addFile (fs.erase src) dst

/-- The export loop (src/chip_organizer.py lines 1016-1029): files are
processed in classification-map order; the first missing source file raises
`FileNotFoundError`, aborting the loop with the files copied so far kept. -/
def exportLoop (srcDir dstDir : String) (copyMode : Bool) :
    List String → List (String × String) → List String × Option String
  | fs, [] => (fs, none)
  | fs, entry :: rest =>
    let src := pathJoin srcDir entry.1
    if fs.contains src then
      exportLoop srcDir dstDir copyMode (exportStep srcDir dstDir copyMode fs entry) rest
    else (fs, some src)

/-- Run the export loop assuming every listed file succeeds; `none` when some
source file is missing at its turn (auxiliary for stating which prefix of the
classification map was processed before a failure). -/
def processAll (srcDir dstDir : String) (copyMode : Bool) :
    List String → List (String × String) → Option (List String)
  | fs, [] => some fs
  | fs, entry :: rest =>
    if fs.contains (pathJoin srcDir entry.1) then
      processAll srcDir dstDir copyMode (exportStep srcDir dstDir copyMode fs entry) rest
    else none

/-- Result of an export run: the success dialog text, or the error dialog
text (src/chip_organizer.py lines 1031-1039). -/
inductive ExportResult where
  | ok (msg : String)
  | error (msg : String)
deriving DecidableEq

/-- The text of Python's `FileNotFoundError` for a missing source path — the
`str(e)` interpolated into the export error dialog. -/
def fileNotFoundMsg (p : String) : String :=
  "[Errno 2] No such file or directory: " ++ p

/-- Embedding of `export_images` (src/chip_organizer.py lines 993-1039): an
empty classification map is rejected up front; otherwise files are copied or
moved until the first missing source aborts the run, and the caller sees
either the success message or the export error message built from the raised
exception. -/
def exportImages (fs : List String) (cls : List (String × String))
    (srcDir dstDir : String) (copyMode : Bool) : List String × ExportResult :=
  if cls.isEmpty then (fs, .error "No images have been classified yet.")
  else
    match exportLoop srcDir dstDir copyMode fs cls with
    | (fs', none) =>
      (fs', .ok ("Successfully " ++ (if copyMode then "copy" else "move") ++ "ed "
        ++ Nat.repr cls.length ++ " images to " ++ dstDir))
    | (fs', some missing) =>
      (fs', .error ("Failed to export images: " ++ fileNotFoundMsg missing))

/-! ### Concrete sample values used by the concrete-instance theorems -/

/-- Ten image names in case-insensitive alphabetical order (the spec's
worked example for the cycle action). -/
def tenImgs : List String :=
  ["img0", "img1", "img2", "img3", "img4", "img5", "img6", "img7", "img8", "img9"]

/-- A fresh session (the state right after `__init__`,
src/chip_organizer.py lines 84-97). -/
def emptySession : SessionState :=
  ⟨none, [], .num 0, .dict [], [], none, [], 0⟩

/-- A progress document whose `'source_directory'` is valid but whose
`'ontology'` makes the category-list refresh raise
(`list(ontology['classes'].keys())` on a non-dict). -/
def badProgressDoc : JsonVal :=
  .dict [("source_directory", .str "d"), ("ontology", .dict [("classes", .num 0)])]

/-- A session in the middle of labeling: one image already classified
`"Old"`, the category `"New"` selected, two images on the grid. -/
def clickSession : SessionState :=
  ⟨none, ["a.png", "b.png"], .num 0, .dict [("categories", .list [.str "Old", .str "New"])],
    [("a.png", "Old")], some "New", [(0, "a.png"), (1, "b.png")], 0⟩

/-! ## Theorems -/

/-! ### Lemmas about `parse_labels_from_text` -/

/-- The loop of `parse_labels_from_text` computes, relative to an arbitrary
accumulator: candidates found in `existing` go to `duplicates`, first
occurrences of the rest extend `added`, repeated occurrences go to
`skipped`. -/
theorem parse_foldl_eq (existing : List String) (lines : List String) (acc : ParseResult) :
    lines.foldl (parseStep existing) acc =
      ⟨acc.added ++ firstOccs acc.added
          (((lines.map pyStrip).filter keepLabel).filter (fun l => !(existing.contains l))),
        acc.duplicates ++ ((lines.map pyStrip).filter keepLabel).filter (fun l => existing.contains l),
        acc.skipped ++ repeatOccs acc.added
          (((lines.map pyStrip).filter keepLabel).filter (fun l => !(existing.contains l)))⟩ := by
  induction lines generalizing acc with
  | nil => simp [firstOccs, repeatOccs]
  | cons a ls ih =>
    rw [List.foldl_cons, ih]
    by_cases hk : keepLabel (pyStrip a) = true
    · by_cases he : pyStrip a ∈ existing
      · simp [parseStep, hk, he, List.append_assoc]
      · by_cases ha : pyStrip a ∈ acc.added
        · simp [parseStep, hk, he, ha, firstOccs, repeatOccs, List.append_assoc]
        · simp [parseStep, hk, he, ha, firstOccs, repeatOccs, List.append_assoc]
    · simp only [Bool.not_eq_true] at hk
      simp [parseStep, hk]

/-- `firstOccs` and `repeatOccs` split the occurrence count of every
element. -/
theorem count_firstOccs_add_repeatOccs (x : String) (F : List String) :
    ∀ seen, (firstOccs seen F).count x + (repeatOccs seen F).count x = F.count x := by
  induction F with
  | nil => intro seen; simp [firstOccs, repeatOccs]
  | cons a l ih =>
    intro seen
    by_cases h : a ∈ seen
    · simp [firstOccs, repeatOccs, h, List.count_cons]
      have := ih seen
      omega
    · simp [firstOccs, repeatOccs, h, List.count_cons]
      have := ih (seen ++ [a])
      omega

/-- A boolean filter and its complement split the occurrence count of every
element. -/
theorem count_filter_add_count_filter_not (x : String) (l : List String) (p : String → Bool) :
    (l.filter p).count x + (l.filter (fun y => !(p y))).count x = l.count x := by
  induction l with
  | nil => simp
  | cons a l ih =>
    by_cases h : p a = true
    · simp [List.filter_cons, h, List.count_cons]
      omega
    · simp only [Bool.not_eq_true] at h
      simp [List.filter_cons, h, List.count_cons]
      omega

/-- Claim C2: `parse_labels_from_text` splits the text into lines, trims each
line, drops empty and `#`-prefixed lines, and assigns each remaining
candidate, in input order, to exactly one of three lists: `duplicates` for
candidates equal to an existing label, `added` for first occurrences of the
rest (preserving input order), `skipped` for repeats of candidates already
added in this call; occurrence counts split exactly across the three lists.
In particular the spec's worked example holds. -/
theorem parse_labels_spec (text : String) (existing : List String) :
    (parseLabelsFromText text existing).duplicates
        = (candidates text).filter (fun l => existing.contains l)
  ∧ (parseLabelsFromText text existing).added
        = firstOccs [] ((candidates text).filter (fun l => !(existing.contains l)))
  ∧ (parseLabelsFromText text existing).skipped
        = repeatOccs [] ((candidates text).filter (fun l => !(existing.contains l)))
  ∧ (∀ l, (candidates text).count l
        = (parseLabelsFromText text existing).added.count l
          + (parseLabelsFromText text existing).duplicates.count l
          + (parseLabelsFromText text existing).skipped.count l)
  ∧ parseLabelsFromText "Cat\nDog\nDog\n\n#comment\nFish" ["Cat"]
        = ⟨["Dog", "Fish"], ["Cat"], ["Dog"]⟩ := by
  have h := parse_foldl_eq existing (pySplitLines text) ⟨[], [], []⟩
  refine ⟨?_, ?_, ?_, ?_, by decide⟩
  · rw [parseLabelsFromText, h]; simp [candidates]
  · rw [parseLabelsFromText, h]; simp [candidates]
  · rw [parseLabelsFromText, h]; simp [candidates]
  · intro l
    rw [parseLabelsFromText, h]
    have h1 := count_firstOccs_add_repeatOccs l
      ((((pySplitLines text).map pyStrip).filter keepLabel).filter
        (fun y => !(existing.contains y))) []
    have h2 := count_filter_add_count_filter_not l
      (((pySplitLines text).map pyStrip).filter keepLabel) (fun y => existing.contains y)
    simp only [candidates]
    simp at h1 h2 ⊢
    omega

/-! ### Lemmas about the ontology CSV round trip -/

/-- Stripping a string that starts with `#` keeps the leading `#`. -/
theorem trimChars_cons_hash (l : List Char) :
    ∃ t, trimChars ('#' :: l) = '#' :: t := by
  have hws : isPyWs '#' = false := by decide
  unfold trimChars
  rw [List.dropWhile_cons, hws]
  simp only [Bool.false_eq_true, if_false, List.reverse_cons]
  rw [List.dropWhile_append]
  by_cases h : (l.reverse.dropWhile isPyWs).isEmpty = true
  · rw [if_pos h]
    exact ⟨[], by simp [List.dropWhile_cons, hws]⟩
  · rw [if_neg h]
    exact ⟨(l.reverse.dropWhile isPyWs).reverse, by simp⟩

/-- The count header written by `export_labels_to_csv` is dropped by the
ontology loader, whatever the count is. -/
theorem countHeader_dropped (n : Nat) :
    keepLabel (pyStrip ("# Total labels: " ++ Nat.repr n)) = false := by
  obtain ⟨t, ht⟩ := trimChars_cons_hash (" Total labels: ".data ++ (Nat.repr n).data)
  have hps : pyStrip ("# Total labels: " ++ Nat.repr n) = ⟨'#' :: t⟩ := by
    show String.mk (trimChars ("# Total labels: " ++ Nat.repr n).data) = _
    rw [show ("# Total labels: " ++ Nat.repr n).data
        = '#' :: (" Total labels: ".data ++ (Nat.repr n).data) from rfl, ht]
  rw [hps]
  simp [keepLabel, startsHash]

/-- Labels that are already stripped, non-empty and not `#`-prefixed pass the
loader's line filter unchanged. -/
theorem filter_keep_of_clean (labels : List String)
    (h : ∀ l ∈ labels, pyStrip l = l ∧ l ≠ "" ∧ startsHash l = false) :
    (labels.map pyStrip).filter keepLabel = labels := by
  induction labels with
  | nil => rfl
  | cons a as ih =>
    obtain ⟨h1, h2, h3⟩ := h a (by simp)
    have hk : keepLabel a = true := by
      have hne : (a == "") = false := by
        cases ha : a == ""
        · rfl
        · exact absurd (eq_of_beq ha) h2
      simp [keepLabel, h3, hne]
    rw [List.map_cons, List.filter_cons, h1, hk]
    simp only [if_pos]
    rw [ih (fun l hl => h l (by simp [hl]))]

/-- Claim C5: for an ontology whose labels are non-empty, newline-free,
trim-invariant and not `#`-prefixed, exporting the labels to CSV (two `#`
header comment lines with the total count, a blank line, then one label per
line in order) and re-importing the file with the ontology CSV loader yields
exactly the original label sequence. -/
theorem export_import_roundtrip (labels : List String)
    (h : ∀ l ∈ labels, pyStrip l = l ∧ l ≠ "" ∧ startsHash l = false
      ∧ l.data.contains '\n' = false) :
    loadOntologyLines (exportLabelsLines labels) = labels := by
  unfold loadOntologyLines exportLabelsLines
  rw [List.map_cons, List.map_cons, List.map_cons,
    List.filter_cons, List.filter_cons, List.filter_cons]
  have g1 : keepLabel (pyStrip "# Exported Labels from Chip Organizer") = false := by decide
  have g2 := countHeader_dropped labels.length
  have g3 : keepLabel (pyStrip "") = false := by decide
  rw [g1, g2, g3]
  simp only [Bool.false_eq_true, if_false]
  exact filter_keep_of_clean labels (fun l hl => ⟨(h l hl).1, (h l hl).2.1, (h l hl).2.2.1⟩)

/-- Witness for C5 at a concrete two-label ontology (one label
hierarchical). -/
theorem export_import_roundtrip_witness :
    (∀ l ∈ (["Cat", "Dog-X"] : List String), pyStrip l = l ∧ l ≠ "" ∧ startsHash l = false
      ∧ l.data.contains '\n' = false)
  ∧ loadOntologyLines (exportLabelsLines ["Cat", "Dog-X"]) = ["Cat", "Dog-X"] :=
  ⟨by decide, export_import_roundtrip ["Cat", "Dog-X"] (by decide)⟩

/-! ### Lemmas about the cycle action -/

/-- `cyclePage` with an in-range cursor (the reset on line 833 of
src/chip_organizer.py does not fire). -/
theorem cyclePage_eq (L : List String) (p c : Nat) (hc : c < L.length) :
    cyclePage L p c =
      if L.length ≤ p then L
      else if c + p ≤ L.length then (L.drop c).take p
      else L.drop c ++ L.take (c + p - L.length) := by
  show (if L.length ≤ p then L
      else if (if L.length ≤ c then 0 else c) + p ≤ L.length then
        (L.drop (if L.length ≤ c then 0 else c)).take p
      else L.drop (if L.length ≤ c then 0 else c)
        ++ L.take ((if L.length ≤ c then 0 else c) + p - L.length)) = _
  rw [if_neg (not_le.mpr hc)]

/-- `nextCursor` with an in-range cursor. -/
theorem nextCursor_eq (n p c : Nat) (hc : c < n) :
    nextCursor n p c = if p ≤ n then (c + p) % n else 0 := by
  show (if p ≤ n then ((if n ≤ c then 0 else c) + p) % n else 0) = _
  rw [if_neg (not_le.mpr hc)]

/-- After `k` cycle actions from an in-range cursor the cursor is the modular
sum `(c + k*p) % n` (when at least a pageful remains). -/
theorem cursorIter_eq (n p c : Nat) (hn : 0 < n) (hc : c < n) (hp : p ≤ n) (k : Nat) :
    cursorIter n p c k = (c + k * p) % n := by
  induction k with
  | zero => simp [cursorIter, Nat.mod_eq_of_lt hc]
  | succ k ih =>
    show nextCursor n p (cursorIter n p c k) = _
    rw [ih, nextCursor_eq _ _ _ (Nat.mod_lt _ hn), if_pos hp, Nat.mod_add_mod]
    congr 1
    ring

/-- Every index offset `j < p` from the cursor (mod `n`) is displayed on the
page, provided at least a pageful remains. -/
theorem mem_cyclePage (L : List String) (p c j : Nat)
    (hn : 0 < L.length) (hc : c < L.length) (hp : p ≤ L.length) (hj : j < p)
    (hix : (c + j) % L.length < L.length) :
    L.get ⟨(c + j) % L.length, hix⟩ ∈ cyclePage L p c := by
  rw [cyclePage_eq L p c hc]
  by_cases hnp : L.length ≤ p
  · rw [if_pos hnp]
    exact L.get_mem _ _
  · rw [if_neg hnp]
    by_cases hcp : c + p ≤ L.length
    · rw [if_pos hcp]
      have hcj : c + j < L.length := by omega
      have hmod : (c + j) % L.length = c + j := Nat.mod_eq_of_lt hcj
      simp only [hmod]
      rw [List.get_drop L hcj, List.get_take _ (by simp [List.length_drop]; omega) hj]
      exact List.get_mem _ _ _
    · rw [if_neg hcp]
      by_cases hcjn : c + j < L.length
      · have hmod : (c + j) % L.length = c + j := Nat.mod_eq_of_lt hcjn
        simp only [hmod]
        rw [List.get_drop L hcjn]
        exact List.mem_append_left _ (List.get_mem _ _ _)
      · have hub : c + j - L.length < L.length := by omega
        have hmod : (c + j) % L.length = c + j - L.length := by
          rw [Nat.mod_eq_sub_mod (by omega), Nat.mod_eq_of_lt hub]
        simp only [hmod]
        rw [List.get_take L hub (show c + j - L.length < c + p - L.length by omega)]
        exact List.mem_append_right _ (List.get_mem _ _ _)

/-- Claim C1: with a sorted (case-insensitively, by display name) unlabeled
list `L` of length `n ≥ 1`, page size `p ≥ 1` and cursor `c < n`, the cycle
action displays `L[c : c+p]` when `c+p ≤ n`; wraps to
`L[c:] ++ L[0 : p-(n-c)]` when `c+p > n` and `n > p`; shows all of `L` when
`n ≤ p`; and the new cursor is `(c+p) mod n` when `n ≥ p`, else `0`.  In
particular with `n = 10`, `p = 4`, `c = 8` the page is
`[img8, img9, img0, img1]` and the new cursor is `2`. -/
theorem cycle_page_spec (L : List String) (p c : Nat)
    (hp : 0 < p) (hn : 0 < L.length) (hc : c < L.length)
    (hsorted : L.Pairwise (fun a b => strLe (pyLower a) (pyLower b) = true)) :
    (c + p ≤ L.length → cyclePage L p c = (L.drop c).take p)
  ∧ (L.length < c + p → p < L.length →
      cyclePage L p c = L.drop c ++ L.take (p - (L.length - c)))
  ∧ (L.length ≤ p → cyclePage L p c = L)
  ∧ nextCursor L.length p c = (if p ≤ L.length then (c + p) % L.length else 0)
  ∧ cyclePage tenImgs 4 8 = ["img8", "img9", "img0", "img1"]
  ∧ nextCursor 10 4 8 = 2 := by
  rw [cyclePage_eq L p c hc, nextCursor_eq L.length p c hc]
  refine ⟨?_, ?_, ?_, rfl, by decide, by decide⟩
  · intro hcp
    by_cases hnp : L.length ≤ p
    · rw [if_pos hnp]
      have hc0 : c = 0 := by omega
      subst hc0
      rw [List.drop_zero, List.take_of_length_le hnp]
    · rw [if_neg hnp, if_pos hcp]
  · intro h1 h2
    rw [if_neg (by omega), if_neg (by omega)]
    have harg : c + p - L.length = p - (L.length - c) := by omega
    rw [harg]
  · intro hnp
    rw [if_pos hnp]

/-- Witness for C1 at the spec's worked example (`n = 10`, `p = 4`,
`c = 8`). -/
theorem cycle_page_spec_witness :
    (0 < 4 ∧ 0 < tenImgs.length ∧ 8 < tenImgs.length
      ∧ tenImgs.Pairwise (fun a b => strLe (pyLower a) (pyLower b) = true))
  ∧ cyclePage tenImgs 4 8 = ["img8", "img9", "img0", "img1"] :=
  ⟨⟨by decide, by decide, by decide, by decide⟩,
    (cycle_page_spec tenImgs 4 8 (by decide) (by decide) (by decide) (by decide)).2.2.2.2.1⟩

/-- Claim C3: with a fixed unlabeled list of length `n ≥ 1` and page size
`p ≥ 1`, repeatedly invoking the cycle action from any valid cursor presents
every remaining image within `ceil(n/p)` invocations. -/
theorem cycle_coverage (L : List String) (p c : Nat)
    (hp : 0 < p) (hn : 0 < L.length) (hc : c < L.length)
    (i : Nat) (hi : i < L.length) :
    ∃ k, k < (L.length + p - 1) / p ∧
      L.get ⟨i, hi⟩ ∈ cyclePage L p (cursorIter L.length p c k) := by
  by_cases hnp : L.length ≤ p
  · refine ⟨0, ?_, ?_⟩
    · have h1 : 1 ≤ (L.length + p - 1) / p := by
        rw [Nat.le_div_iff_mul_le hp]
        omega
      omega
    · show L.get ⟨i, hi⟩ ∈ cyclePage L p c
      rw [cyclePage_eq L p c hc, if_pos hnp]
      exact List.get_mem _ _ _
  · have hpn : p ≤ L.length := by omega
    have hd_ex : ∃ d, d < L.length ∧ (c + d) % L.length = i := by
      refine ⟨(i + L.length - c) % L.length, Nat.mod_lt _ hn, ?_⟩
      rw [Nat.add_mod_mod]
      have h2 : c + (i + L.length - c) = i + L.length := by omega
      rw [h2, Nat.add_mod_right]
      exact Nat.mod_eq_of_lt hi
    obtain ⟨d, hd, hdi⟩ := hd_ex
    refine ⟨d / p, ?_, ?_⟩
    · have hle : d / p * p ≤ d := Nat.div_mul_le_self d p
      have hstep : (d / p + 1) ≤ (L.length + p - 1) / p := by
        rw [Nat.le_div_iff_mul_le hp]
        have hexp : (d / p + 1) * p = d / p * p + p := by ring
        omega
      omega
    · have hcur : cursorIter L.length p c (d / p) = (c + d / p * p) % L.length :=
        cursorIter_eq _ _ _ hn hc hpn _
      rw [hcur]
      have hj : d % p < p := Nat.mod_lt d hp
      have hix : ((c + d / p * p) % L.length + d % p) % L.length < L.length :=
        Nat.mod_lt _ hn
      have hkey : ((c + d / p * p) % L.length + d % p) % L.length = i := by
        rw [Nat.mod_add_mod]
        have hdiv := Nat.div_add_mod d p
        have hsum : c + d / p * p + d % p = c + d := by
          have hcomm : d / p * p = p * (d / p) := by ring
          omega
        rw [hsum, hdi]
      have hmem := mem_cyclePage L p ((c + d / p * p) % L.length) (d % p)
        hn (Nat.mod_lt _ hn) hpn hj hix
      have hfin : (⟨((c + d / p * p) % L.length + d % p) % L.length, hix⟩ : Fin L.length)
          = ⟨i, hi⟩ := Fin.ext hkey
      rw [hfin] at hmem
      exact hmem

/-- Witness for C3: with two images, page size 1, cursor 0, the second image
is reached within 2 cycle invocations. -/
theorem cycle_coverage_witness :
    (0 < 1 ∧ 0 < (["imgA", "imgB"] : List String).length
      ∧ 0 < (["imgA", "imgB"] : List String).length
      ∧ 1 < (["imgA", "imgB"] : List String).length)
  ∧ (∃ k, k < ((["imgA", "imgB"] : List String).length + 1 - 1) / 1 ∧
      (["imgA", "imgB"] : List String).get ⟨1, by decide⟩
        ∈ cyclePage ["imgA", "imgB"] 1
            (cursorIter (["imgA", "imgB"] : List String).length 1 0 k)) :=
  ⟨⟨by decide, by decide, by decide, by decide⟩,
    cycle_coverage ["imgA", "imgB"] 1 0 (by decide) (by decide) (by decide) 1 (by decide)⟩

/-! ### Lemmas about `find_image_files` -/

/-- `lexLe` is total. -/
theorem lexLe_total (a : List Char) : ∀ (b : List Char), lexLe a b = true ∨ lexLe b a = true := by
  induction a with
  | nil => intro b; exact Or.inl rfl
  | cons x xs ih =>
    intro b
    cases b with
    | nil => exact Or.inr rfl
    | cons y ys =>
      by_cases h1 : x.toNat < y.toNat
      · left; simp [lexLe, h1]
      · by_cases h2 : y.toNat < x.toNat
        · right; simp [lexLe, h2]
        · rcases ih ys with h | h
          · left; simp [lexLe, h1, h2, h]
          · right; simp [lexLe, h1, h2, h]

/-- `lexLe` is transitive. -/
theorem lexLe_trans (a : List Char) : ∀ (b c : List Char),
    lexLe a b = true → lexLe b c = true → lexLe a c = true := by
  induction a with
  | nil => intro b c _ _; rfl
  | cons x xs ih =>
    intro b c hab hbc
    cases b with
    | nil => simp [lexLe] at hab
    | cons y ys =>
      cases c with
      | nil => simp [lexLe] at hbc
      | cons z zs =>
        by_cases hxy : x.toNat < y.toNat
        · by_cases hyz : y.toNat < z.toNat
          · simp [lexLe, show x.toNat < z.toNat by omega]
          · by_cases hzy : z.toNat < y.toNat
            · simp [lexLe, hyz, hzy] at hbc
            · simp [lexLe, show x.toNat < z.toNat by omega]
        · by_cases hyx : y.toNat < x.toNat
          · simp [lexLe, hxy, hyx] at hab
          · have hab' : lexLe xs ys = true := by simpa [lexLe, hxy, hyx] using hab
            by_cases hyz : y.toNat < z.toNat
            · simp [lexLe, show x.toNat < z.toNat by omega]
            · by_cases hzy : z.toNat < y.toNat
              · simp [lexLe, hyz, hzy] at hbc
              · have hbc' : lexLe ys zs = true := by simpa [lexLe, hyz, hzy] using hbc
                simp [lexLe, show ¬ x.toNat < z.toNat by omega,
                  show ¬ z.toNat < x.toNat by omega, ih ys zs hab' hbc']

/-- `strLe` is transitive. -/
theorem strLe_trans (a b c : String) (h1 : strLe a b = true) (h2 : strLe b c = true) :
    strLe a c = true :=
  lexLe_trans a.data b.data c.data h1 h2

/-- Membership in an insertion. -/
theorem mem_insertLe (x y : String) (l : List String) :
    y ∈ insertLe x l ↔ y = x ∨ y ∈ l := by
  induction l with
  | nil => simp [insertLe]
  | cons z zs ih =>
    by_cases h : strLe x z = true
    · simp [insertLe, h]
    · simp only [insertLe, h, Bool.false_eq_true, if_false, List.mem_cons, ih]
      tauto

/-- Insertion is a permutation of consing. -/
theorem insertLe_perm (x : String) (l : List String) : (insertLe x l).Perm (x :: l) := by
  induction l with
  | nil => exact List.Perm.refl _
  | cons y ys ih =>
    by_cases h : strLe x y = true
    · simp [insertLe, h]
    · simp only [insertLe, h, Bool.false_eq_true, if_false]
      exact (ih.cons y).trans (List.Perm.swap x y ys)

/-- The sort is a permutation of its input. -/
theorem sortLe_perm (l : List String) : (sortLe l).Perm l := by
  induction l with
  | nil => exact List.Perm.refl _
  | cons x xs ih =>
    exact (insertLe_perm x (sortLe xs)).trans (ih.cons x)

/-- Insertion preserves sortedness. -/
theorem insertLe_sorted (x : String) (l : List String)
    (h : List.Sorted (fun a b => strLe a b = true) l) :
    List.Sorted (fun a b => strLe a b = true) (insertLe x l) := by
  induction l with
  | nil => simp [insertLe]
  | cons y ys ih =>
    rw [List.sorted_cons] at h
    by_cases hxy : strLe x y = true
    · simp only [insertLe, hxy, if_pos]
      rw [List.sorted_cons]
      refine ⟨?_, List.sorted_cons.mpr h⟩
      intro b hb
      rcases List.mem_cons.mp hb with rfl | hb
      · exact hxy
      · exact strLe_trans x y b hxy (h.1 b hb)
    · have hyx : strLe y x = true := by
        rcases lexLe_total x.data y.data with hh | hh
        · exact absurd hh hxy
        · exact hh
      simp only [insertLe, hxy, Bool.false_eq_true, if_false]
      rw [List.sorted_cons]
      refine ⟨?_, ih h.2⟩
      intro b hb
      rcases (mem_insertLe x b ys).mp hb with rfl | hb
      · exact hyx
      · exact h.1 b hb

/-- The sort produces a sorted list. -/
theorem sortLe_sorted (l : List String) :
    List.Sorted (fun a b => strLe a b = true) (sortLe l) := by
  induction l with
  | nil => simp [sortLe]
  | cons x xs ih => exact insertLe_sorted x (sortLe xs) ih

/-- Membership in the set-collection fold. -/
theorem mem_foldl_addNew (l : List String) : ∀ (acc : List String) (x : String),
    x ∈ l.foldl addNew acc ↔ x ∈ acc ∨ x ∈ l := by
  induction l with
  | nil => intro acc x; simp
  | cons a as ih =>
    intro acc x
    rw [List.foldl_cons, ih]
    by_cases h : acc.contains a = true
    · have hmem : a ∈ acc := List.elem_iff.mp h
      rw [show addNew acc a = acc by simp [addNew, hmem]]
      simp only [List.mem_cons]
      constructor
      · rintro (hx | hx)
        · exact Or.inl hx
        · exact Or.inr (Or.inr hx)
      · rintro (hx | rfl | hx)
        · exact Or.inl hx
        · exact Or.inl hmem
        · exact Or.inr hx
    · have hnmem : a ∉ acc := fun hh => h (List.elem_iff.mpr hh)
      rw [show addNew acc a = acc ++ [a] by simp [addNew, hnmem]]
      simp only [List.mem_append, List.mem_cons, List.mem_singleton]
      tauto

/-- The set-collection fold preserves duplicate-freedom. -/
theorem nodup_foldl_addNew (l : List String) : ∀ (acc : List String),
    acc.Nodup → (l.foldl addNew acc).Nodup := by
  induction l with
  | nil => intro acc h; simpa
  | cons a as ih =>
    intro acc h
    rw [List.foldl_cons]
    apply ih
    by_cases ha : a ∈ acc
    · simpa [addNew, ha]
    · simp [addNew, ha, List.nodup_append, h]

/-- Membership in `collectMatches`: exactly the entries matched by the
lowercase or uppercase glob of some extension. -/
theorem mem_collectMatches (ci : Bool) (entries formats : List String) (x : String) :
    x ∈ collectMatches ci entries formats ↔
      ∃ ext ∈ formats,
        x ∈ globSuffix ci entries ext ∨ x ∈ globSuffix ci entries (pyUpper ext) := by
  have haux : ∀ (fs acc : List String),
      (x ∈ fs.foldl
        (fun acc ext =>
          (globSuffix ci entries (pyUpper ext)).foldl addNew
            ((globSuffix ci entries ext).foldl addNew acc))
        acc
      ↔ x ∈ acc ∨ ∃ ext ∈ fs,
          x ∈ globSuffix ci entries ext ∨ x ∈ globSuffix ci entries (pyUpper ext)) := by
    intro fs
    induction fs with
    | nil => intro acc; simp
    | cons e es ih =>
      intro acc
      rw [List.foldl_cons, ih, mem_foldl_addNew, mem_foldl_addNew]
      simp only [List.mem_cons]
      constructor
      · rintro (((hx | hx) | hx) | ⟨ext, hext, hx⟩)
        · exact Or.inl hx
        · exact Or.inr ⟨e, Or.inl rfl, Or.inl hx⟩
        · exact Or.inr ⟨e, Or.inl rfl, Or.inr hx⟩
        · exact Or.inr ⟨ext, Or.inr hext, hx⟩
      · rintro (hx | ⟨ext, (rfl | hext), hx⟩)
        · exact Or.inl (Or.inl (Or.inl hx))
        · rcases hx with hx | hx
          · exact Or.inl (Or.inl (Or.inr hx))
          · exact Or.inl (Or.inr hx)
        · exact Or.inr ⟨ext, hext, hx⟩
  unfold collectMatches
  rw [haux formats []]
  simp

/-- `collectMatches` is duplicate-free. -/
theorem nodup_collectMatches (ci : Bool) (entries formats : List String) :
    (collectMatches ci entries formats).Nodup := by
  have haux : ∀ (fs acc : List String), acc.Nodup →
      (fs.foldl
        (fun acc ext =>
          (globSuffix ci entries (pyUpper ext)).foldl addNew
            ((globSuffix ci entries ext).foldl addNew acc))
        acc).Nodup := by
    intro fs
    induction fs with
    | nil => intro acc h; simpa
    | cons e es ih =>
      intro acc h
      rw [List.foldl_cons]
      exact ih _ (nodup_foldl_addNew _ _ (nodup_foldl_addNew _ _ h))
  exact haux formats [] List.nodup_nil

/-- Claim C4: `find_image_files` returns a list sorted by path with no
duplicate entries; an entry appears exactly once even when both the lowercase
and the uppercase spelling of its extension match it, and on a
case-insensitive file system a directory entry `A.PNG` (reachable under both
spellings `a.png`/`A.PNG` of the name) yields exactly one result. -/
theorem find_image_files_spec (ci : Bool) (entries formats : List String) :
    List.Sorted (fun a b => strLe a b = true) (findImageFiles ci entries formats)
  ∧ (findImageFiles ci entries formats).Nodup
  ∧ (∀ x, x ∈ findImageFiles ci entries formats ↔
      ∃ ext ∈ formats,
        x ∈ globSuffix ci entries ext ∨ x ∈ globSuffix ci entries (pyUpper ext))
  ∧ globSuffix true ["A.PNG"] ".png" = ["A.PNG"]
  ∧ globSuffix true ["A.PNG"] (pyUpper ".png") = ["A.PNG"]
  ∧ findImageFiles true ["A.PNG"] [".png"] = ["A.PNG"] := by
  refine ⟨sortLe_sorted _, ?_, ?_, by decide, by decide, by decide⟩
  · rw [findImageFiles, (sortLe_perm _).nodup_iff]
    exact nodup_collectMatches ci entries formats
  · intro x
    rw [findImageFiles, (sortLe_perm _).mem_iff, mem_collectMatches]

/-! ### Label removal does not cascade (C6) -/

/-- Claim C6: removing any set of labels from the ontology leaves the
classification map unchanged; an image classified as `X` stays classified as
`X` and the per-label statistics still count it under `X`.  The final
conjunct shows the operation does act on the taxonomy itself. -/
theorem remove_label_no_cascade (s : SessionState) (labelsToRemove : List String)
    (img X : String) (h : dictGet s.classifications img = some X) :
    dictGet (removeLabelOp s labelsToRemove).classifications img = some X
  ∧ (removeLabelOp s labelsToRemove).classifications = s.classifications
  ∧ categoryCount (removeLabelOp s labelsToRemove).classifications X
      = categoryCount s.classifications X
  ∧ removeCategories (.dict [("categories", .list [.str "Dog", .str "Cat"])]) ["Dog"]
      = .dict [("categories", .list [.str "Cat"])] :=
  ⟨h, rfl, rfl, rfl⟩

/-- Witness for C6: a concrete session keeps its `"Old"` classification when
`"Old"` is removed from the taxonomy. -/
theorem remove_label_no_cascade_witness :
    dictGet clickSession.classifications "a.png" = some "Old"
  ∧ dictGet (removeLabelOp clickSession ["Old"]).classifications "a.png" = some "Old" :=
  ⟨by decide,
    (remove_label_no_cascade clickSession ["Old"] "a.png" "Old" (by decide)).1⟩

/-! ### Ontology shape handling (C9) -/

/-- Claim C9 counterexample: a document of a shape outside the three listed
ones — an object with neither a `'categories'` nor a `'classes'` key — does
not fall back to an empty category list: its keys become the categories. -/
theorem ontology_unrecognized_shape_cex :
    getCategoriesFromOntology (.dict [("x", .null)]) = some (.list [.str "x"])
  ∧ JsonVal.list [.str "x"] ≠ .list [] :=
  ⟨rfl, by simp⟩

/-- Claim C9 (amended): the loader extraction returns the label sequence for
each of the three historical shapes; an object with neither key yields its
keys as the labels; only documents that are neither an object nor a list fall
back to an empty category list. -/
theorem get_categories_spec (entries : List (String × JsonVal)) (xs : List JsonVal)
    (ces : List (String × JsonVal)) (sv : String) (nv : Int) (bv : Bool) :
    (lookupEntry "categories" entries = some (.list xs) →
      getCategoriesFromOntology (.dict entries) = some (.list xs))
  ∧ (lookupEntry "categories" entries = none →
      lookupEntry "classes" entries = some (.dict ces) →
      getCategoriesFromOntology (.dict entries)
        = some (.list (ces.map (fun e => .str e.1))))
  ∧ getCategoriesFromOntology (.list xs) = some (.list xs)
  ∧ (lookupEntry "categories" entries = none → lookupEntry "classes" entries = none →
      getCategoriesFromOntology (.dict entries)
        = some (.list (entries.map (fun e => .str e.1))))
  ∧ getCategoriesFromOntology (.str sv) = some (.list [])
  ∧ getCategoriesFromOntology (.num nv) = some (.list [])
  ∧ getCategoriesFromOntology (.bool bv) = some (.list [])
  ∧ getCategoriesFromOntology .null = some (.list []) := by
  refine ⟨?_, ?_, rfl, ?_, rfl, rfl, rfl, rfl⟩
  · intro h
    simp [getCategoriesFromOntology, h]
  · intro h1 h2
    simp [getCategoriesFromOntology, h1, h2]
  · intro h1 h2
    simp [getCategoriesFromOntology, h1, h2]

/-- Witness for C9 (amended): each recognized shape at a concrete
document. -/
theorem get_categories_spec_witness :
    lookupEntry "categories" [("categories", JsonVal.list [.str "Cat"])]
      = some (.list [.str "Cat"])
  ∧ getCategoriesFromOntology (.dict [("categories", .list [.str "Cat"])])
      = some (.list [.str "Cat"]) :=
  ⟨rfl,
    (get_categories_spec [("categories", .list [.str "Cat"])] [.str "Cat"] [] "" 0 false).1 rfl⟩

/-! ### Session load atomicity (C7) -/

/-- Claim C7 counterexample: a load attempt that fails after restoration has
begun.  The document has a valid `'source_directory'` but an ontology whose
category extraction raises during the UI refresh; the load reports failure,
yet the session's source directory (among other fields) has already been
replaced — load is not atomic on every error. -/
theorem load_progress_not_atomic_cex :
    (loadProgress (fun _ => []) emptySession (some badProgressDoc)).2 = false
  ∧ (loadProgress (fun _ => []) emptySession (some badProgressDoc)).1.sourceDirectory
      = some "d"
  ∧ emptySession.sourceDirectory = none :=
  ⟨rfl, rfl, rfl⟩

/-- Claim C7 (amended): load attempts that fail before the first state
assignment — an unreadable or unparsable document, a missing
`'source_directory'` field, or a non-string `'source_directory'` value —
report a recoverable failure and leave the entire session state at its
pre-operation value.  (A failure during the post-restore category refresh
leaves partially updated state, per the counterexample.) -/
theorem load_progress_pre_restore_atomic (discover : String → List String)
    (s : SessionState) (doc : Option JsonVal) :
    (doc = none → loadProgress discover s doc = (s, false))
  ∧ (∀ d, doc = some d → jsonField d "source_directory" = none →
      loadProgress discover s doc = (s, false))
  ∧ (∀ d v, doc = some d → jsonField d "source_directory" = some v →
      (∀ x, v ≠ .str x) → loadProgress discover s doc = (s, false)) := by
  refine ⟨?_, ?_, ?_⟩
  · rintro rfl
    rfl
  · rintro d rfl hf
    simp [loadProgress, hf]
  · rintro d v rfl hf hv
    cases v with
    | str x => exact absurd rfl (hv x)
    | num n => simp [loadProgress, hf]
    | bool b => simp [loadProgress, hf]
    | null => simp [loadProgress, hf]
    | list xs => simp [loadProgress, hf]
    | dict es => simp [loadProgress, hf]

/-- Witness for C7 (amended): an unreadable document leaves the fresh session
unchanged. -/
theorem load_progress_pre_restore_atomic_witness :
    loadProgress (fun _ => []) emptySession none = (emptySession, false) :=
  (load_progress_pre_restore_atomic (fun _ => []) emptySession none).1 rfl

/-! ### Export abort behavior (C8) -/

/-- One step of `processAll`. -/
theorem processAll_cons (srcDir dstDir : String) (copyMode : Bool) (fs : List String)
    (fn cat : String) (rest : List (String × String)) :
    processAll srcDir dstDir copyMode fs ((fn, cat) :: rest)
      = if fs.contains (pathJoin srcDir fn) then
          processAll srcDir dstDir copyMode
            (exportStep srcDir dstDir copyMode fs (fn, cat)) rest
        else none := rfl

/-- One step of the export loop. -/
theorem exportLoop_cons (srcDir dstDir : String) (copyMode : Bool) (fs : List String)
    (fn cat : String) (rest : List (String × String)) :
    exportLoop srcDir dstDir copyMode fs ((fn, cat) :: rest)
      = if fs.contains (pathJoin srcDir fn) then
          exportLoop srcDir dstDir copyMode
            (exportStep srcDir dstDir copyMode fs (fn, cat)) rest
        else (fs, some (pathJoin srcDir fn)) := rfl

/-- The export loop first runs any prefix on which `processAll` succeeds. -/
theorem exportLoop_append (srcDir dstDir : String) (copyMode : Bool)
    (pre : List (String × String)) :
    ∀ (fs fs₁ : List String) (rest : List (String × String)),
      processAll srcDir dstDir copyMode fs pre = some fs₁ →
      exportLoop srcDir dstDir copyMode fs (pre ++ rest)
        = exportLoop srcDir dstDir copyMode fs₁ rest := by
  induction pre with
  | nil =>
    intro fs fs₁ rest h
    simp [processAll] at h
    subst h
    rfl
  | cons e es ih =>
    obtain ⟨fn, cat⟩ := e
    intro fs fs₁ rest h
    rw [processAll_cons] at h
    rw [List.cons_append, exportLoop_cons]
    by_cases hc : fs.contains (pathJoin srcDir fn) = true
    · rw [if_pos hc] at h
      rw [if_pos hc]
      exact ih _ _ _ h
    · rw [if_neg hc] at h
      exact absurd h (by simp)

/-- Claim C8 (amended): an export run whose classification list splits as a
succeeding prefix followed by a file with a missing source aborts at that
file: the prefix's copies are kept (no rollback), the remaining entries are
not processed at all, and the error report names the failing file (through
the file-not-found message) — but not how many files succeeded. -/
theorem export_abort_spec (fs fs₁ : List String) (pre post : List (String × String))
    (f cat srcDir dstDir : String) (copyMode : Bool)
    (hpre : processAll srcDir dstDir copyMode fs pre = some fs₁)
    (hmiss : fs₁.contains (pathJoin srcDir f) = false) :
    exportImages fs (pre ++ (f, cat) :: post) srcDir dstDir copyMode =
      (fs₁, .error ("Failed to export images: " ++ fileNotFoundMsg (pathJoin srcDir f))) := by
  have hloop : exportLoop srcDir dstDir copyMode fs (pre ++ (f, cat) :: post)
      = (fs₁, some (pathJoin srcDir f)) := by
    rw [exportLoop_append srcDir dstDir copyMode pre fs fs₁ _ hpre, exportLoop_cons,
      if_neg (show ¬ (fs₁.contains (pathJoin srcDir f) = true) from
        fun hh => by rw [hh] at hmiss; cases hmiss)]
  simp [exportImages, hloop]

/-- Witness for C8 (amended): one file copied, then a missing file aborts the
run with the file-not-found report. -/
theorem export_abort_spec_witness :
    (processAll "s" "o" true ["s/g.png"] [("g.png", "c")] = some ["s/g.png", "o/c/g.png"]
      ∧ (["s/g.png", "o/c/g.png"] : List String).contains (pathJoin "s" "f.png") = false)
  ∧ exportImages ["s/g.png"] ([("g.png", "c")] ++ ("f.png", "x") :: []) "s" "o" true
      = (["s/g.png", "o/c/g.png"],
          .error ("Failed to export images: " ++ fileNotFoundMsg (pathJoin "s" "f.png"))) :=
  ⟨⟨by decide, by decide⟩,
    export_abort_spec ["s/g.png"] ["s/g.png", "o/c/g.png"] [("g.png", "c")] []
      "f.png" "x" "s" "o" true (by decide) (by decide)⟩

/-- Claim C8 counterexample: two failing export runs that differ in how many
files succeeded before the failure (none vs. one, visible in the resulting
file sets) produce identical error reports — the report does not state how
many files succeeded. -/
theorem export_report_no_count_cex :
    (exportImages ["s/g.png"] [("f.png", "c")] "s" "o" true).2
      = (exportImages ["s/g.png"] [("g.png", "c"), ("f.png", "c")] "s" "o" true).2
  ∧ (exportImages ["s/g.png"] [("f.png", "c")] "s" "o" true).1 = ["s/g.png"]
  ∧ (exportImages ["s/g.png"] [("g.png", "c"), ("f.png", "c")] "s" "o" true).1
      = ["s/g.png", "o/c/g.png"] :=
  ⟨by decide, by decide, by decide⟩

/-! ### Click-to-label overwrites (C10) -/

/-- One step of `dictGet`. -/
theorem dictGet_cons (e : String × String) (rest : List (String × String)) (k : String) :
    dictGet (e :: rest) k = if e.1 = k then some e.2 else dictGet rest k := rfl

/-- Setting a key through the in-place map finds the new value (whatever was
there before). -/
theorem dictGet_mapSet (k v : String) (m : List (String × String))
    (h : m.any (fun p => p.1 == k) = true) :
    dictGet (m.map (fun p => if p.1 = k then (p.1, v) else p)) k = some v := by
  induction m with
  | nil => simp at h
  | cons e es ih =>
    rw [List.map_cons]
    by_cases he : e.1 = k
    · rw [if_pos he, dictGet_cons]
      dsimp only
      rw [if_pos he]
    · rw [if_neg he, dictGet_cons, if_neg he]
      apply ih
      simpa [List.any_cons, he] using h

/-- Appending a fresh binding makes it visible when no earlier key
matches. -/
theorem dictGet_append_of_not_any (m : List (String × String)) (k v : String)
    (h : ¬ (m.any (fun p => p.1 == k) = true)) :
    dictGet (m ++ [(k, v)]) k = some v := by
  induction m with
  | nil => simp [dictGet]
  | cons e es ih =>
    have he : ¬ (e.1 = k) := fun hh => h (by simp [List.any_cons, hh])
    have h' : ¬ (es.any (fun p => p.1 == k) = true) :=
      fun hh => h (by simp [List.any_cons, hh])
    rw [List.cons_append, dictGet_cons, if_neg he]
    exact ih h'

/-- `dictSet` then `dictGet` on the same key yields the new value. -/
theorem dictGet_dictSet_same (m : List (String × String)) (k v : String) :
    dictGet (dictSet m k v) k = some v := by
  unfold dictSet
  by_cases h : m.any (fun p => p.1 == k) = true
  · rw [if_pos h]
    exact dictGet_mapSet k v m h
  · rw [if_neg h]
    exact dictGet_append_of_not_any m k v h

/-- The in-place map leaves every other key's binding unchanged. -/
theorem dictGet_map_other (m : List (String × String)) (k v k2 : String)
    (hne : k2 ≠ k) :
    dictGet (m.map (fun p => if p.1 = k then (p.1, v) else p)) k2 = dictGet m k2 := by
  induction m with
  | nil => rfl
  | cons e es ih =>
    rw [List.map_cons]
    by_cases he : e.1 = k
    · rw [if_pos he, dictGet_cons, dictGet_cons]
      dsimp only
      have h2 : ¬ (e.1 = k2) := fun hh => hne (hh.symm.trans he)
      rw [if_neg h2, if_neg h2, ih]
    · rw [if_neg he, dictGet_cons, dictGet_cons]
      by_cases h2 : e.1 = k2
      · rw [if_pos h2, if_pos h2]
      · rw [if_neg h2, if_neg h2, ih]

/-- Appending a binding for a different key leaves a lookup unchanged. -/
theorem dictGet_append_other (m : List (String × String)) (k v k2 : String)
    (hne : k2 ≠ k) :
    dictGet (m ++ [(k, v)]) k2 = dictGet m k2 := by
  induction m with
  | nil =>
    have : ¬ (k = k2) := fun hh => hne hh.symm
    simp [dictGet, this]
  | cons e es ih =>
    rw [List.cons_append, dictGet_cons, dictGet_cons]
    by_cases h2 : e.1 = k2
    · rw [if_pos h2, if_pos h2]
    · rw [if_neg h2, if_neg h2, ih]

/-- `dictSet` leaves every other key's binding unchanged. -/
theorem dictGet_dictSet_other (m : List (String × String)) (k v k2 : String)
    (hne : k2 ≠ k) : dictGet (dictSet m k v) k2 = dictGet m k2 := by
  unfold dictSet
  by_cases h : m.any (fun p => p.1 == k) = true
  · rw [if_pos h]
    exact dictGet_map_other m k v k2 hne
  · rw [if_neg h]
    exact dictGet_append_other m k v k2 hne

/-- Claim C10: with a category selected, clicking an already classified image
overwrites that image's entry with the selected category (last click wins);
no other entry of the classification map is added, removed or changed; the
grid mapping — hence the visible grid — is untouched, and so are the other
session fields. -/
theorem on_image_clicked_spec (s : SessionState) (widget : Nat) (cat img old : String)
    (hcat : s.currentCategory = some cat)
    (himg : gridGet s.gridLabels widget = some img)
    (hold : dictGet s.classifications img = some old) :
    dictGet (onImageClicked s widget).classifications img = some cat
  ∧ (∀ k, k ≠ img →
      dictGet (onImageClicked s widget).classifications k = dictGet s.classifications k)
  ∧ (onImageClicked s widget).gridLabels = s.gridLabels
  ∧ gridGet (onImageClicked s widget).gridLabels widget = some img
  ∧ (onImageClicked s widget).imageFiles = s.imageFiles
  ∧ (onImageClicked s widget).ontology = s.ontology
  ∧ (onImageClicked s widget).currentCategory = s.currentCategory := by
  have hstep : onImageClicked s widget
      = { s with classifications := dictSet s.classifications img cat } := by
    unfold onImageClicked
    rw [hcat, himg]
  rw [hstep]
  exact ⟨dictGet_dictSet_same _ _ _,
    fun k hk => dictGet_dictSet_other _ _ _ _ hk, rfl, himg, rfl, rfl, rfl⟩

/-- Witness for C10: clicking the already-`"Old"`-classified image with
`"New"` selected re-labels it `"New"`. -/
theorem on_image_clicked_spec_witness :
    (clickSession.currentCategory = some "New"
      ∧ gridGet clickSession.gridLabels 0 = some "a.png"
      ∧ dictGet clickSession.classifications "a.png" = some "Old")
  ∧ dictGet (onImageClicked clickSession 0).classifications "a.png" = some "New" :=
  ⟨⟨by decide, by decide, by decide⟩,
    (on_image_clicked_spec clickSession 0 "New" "a.png" "Old"
      (by decide) (by decide) (by decide)).1⟩
